import Mathlib

/-!
Shallow embedding of the rs-car-mirror protocol core
(src/car-mirror/src/{common,dag_walk,incremental_verification,messages}.rs)
together with proofs about it.

Modelling conventions:
* CIDs are immutable records of a codec tag, a multihash code and a digest;
  equality is structural, matching byte-equality of the encoded form.
* Block stores are total maps `Cid → Option bytes`; bytes are `List Nat`.
* External hash functions are a parameter `hashers : Nat → Option (List Nat → List Nat)`
  mapping a multihash code to the digest function, `none` for unsupported codes
  (this models `Code::try_from(cid.hash().code())` plus `Code::digest`).
* The bloom filter of the `deterministic_bloom` crate is a hash count plus a
  byte (bit) array; its `k` hash positions are a parameter
  `h : Nat → List Nat → Nat` (the i-th hash of the input bytes).
* The reference extractor (`references` / `cache.references`) is abstracted as a
  total function `refs : Cid → List Cid`: content addressing makes the
  references of the block named by a CID a function of the CID.
* `VecDeque<Cid>` is modelled as a `List Cid` whose HEAD is the BACK of the
  deque: `pop_back` takes the head, and `push_front` appends at the end of the
  list. Consequently `VecDeque::from(roots)` (which pushes each root at the
  back) is `roots.reverse`.
* Loops over asynchronous streams are modelled as fuel-indexed recursion; all
  theorems hold for every fuel value.
-/

namespace CarMirror

/-- Content identifier: codec tag plus multihash (hash algorithm code and digest).
Models `libipld_core::cid::Cid`; equality is structural. -/
structure Cid where
  codec : Nat
  hashCode : Nat
  digest : List Nat
  deriving DecidableEq, Repr

/-- Canonical byte form of a CID (models `Cid::to_bytes`). The exact encoding is
irrelevant to every theorem below (bloom hash families are quantified over), so
a simple unambiguous flattening is used. -/
def Cid.to_bytes (c : Cid) : List Nat :=
  c.codec :: c.hashCode :: c.digest

/-- A block store is a map from CIDs to block bytes (models the `BlockStore` trait). -/
def Store : Type := Cid → Option (List Nat)

/-- Store a block under a given CID (models `BlockStore::put_block_keyed`). -/
def put_keyed (store : Store) (cid : Cid) (bytes : List Nat) : Store :=
  fun c => if c = cid then some bytes else store c

/-- The state of a block during incremental verification
(models `incremental_verification::BlockState`). -/
inductive BlockState where
  | Have
  | Want
  | Unexpected
  deriving DecidableEq, Repr

/-- Error type of the library (models `error::Error` with the
`IncrementalVerificationError` sub-enum flattened in). -/
inductive Error where
  | TooManyBytes (receive_maximum : Nat) (bytes_read : Nat)
  | UnsupportedCodec (cid : Cid)
  | UnsupportedHashCode (cid : Cid)
  | ParsingError
  | CarFileError
  | BlockStoreError (cid : Cid)
  | BlockSizeExceeded (cid : Cid) (block_bytes : Nat) (max_block_size : Nat)
  | ExpectedWantedBlock (cid : Cid) (block_state : BlockState)
  | DigestMismatch (cid : Cid) (actual_cid : Cid)
  deriving DecidableEq, Repr

/-- Runtime-sized bloom filter of the `deterministic_bloom` crate:
a hash count and a byte array holding the bit array. -/
structure BloomFilter where
  hash_count : Nat
  bytes : List Nat
  deriving DecidableEq, Repr

/-- Bit number `i` of a byte array (bit `i % 8` of byte `i / 8`). -/
def bit_at (bytes : List Nat) (i : Nat) : Bool :=
  Nat.testBit (bytes.getD (i / 8) 0) (i % 8)

/-- Bloom membership: all `hash_count` hashed bit positions are set.
The hash family `h` (i-th hash of the input bytes) is a parameter; positions
are taken modulo the bit length. Models `BloomFilter::contains`. -/
def BloomFilter.contains (h : Nat → List Nat → Nat) (b : BloomFilter) (xs : List Nat) : Bool :=
  (List.range b.hash_count).all fun i => bit_at b.bytes (h i xs % (8 * b.bytes.length))

/-- Result of one traversal step (models `dag_walk::TraversedItem`). -/
inductive TraversedItem where
  | Have (cid : Cid)
  | Missing (cid : Cid)
  deriving DecidableEq, Repr

/-- The CID of a traversed item. -/
def TraversedItem.cidOf : TraversedItem → Cid
  | .Have c => c
  | .Missing c => c

/-- Convert a traversed item to its CID, turning `Missing` into the
CID-not-found block store error (models `TraversedItem::to_cid`). -/
def TraversedItem.to_cid : TraversedItem → Except Error Cid
  | .Have c => .ok c
  | .Missing c => .error (.BlockStoreError c)

/-- An ongoing DAG traversal (models `dag_walk::DagWalk`).
The `frontier` list is the deque stored back-to-front (see module docstring). -/
structure DagWalk where
  frontier : List Cid
  visited : List Cid
  breadth_first : Bool
  deriving DecidableEq, Repr

/-- Start a traversal from the given roots (models `DagWalk::new`): the frontier
deque holds the roots front-to-back, i.e. `roots.reverse` in our back-first
representation; the visited set starts empty. -/
def DagWalk.new (roots : List Cid) (breadth_first : Bool) : DagWalk :=
  ⟨roots.reverse, [], breadth_first⟩

/-- Breadth-first traversal (models `DagWalk::breadth_first`). -/
def DagWalk.breadthFirst (roots : List Cid) : DagWalk :=
  DagWalk.new roots true

/-- Depth-first traversal (models `DagWalk::depth_first`). -/
def DagWalk.depthFirst (roots : List Cid) : DagWalk :=
  DagWalk.new roots false

/-- Pop elements from the front of a list until an unvisited one is found,
returning it together with the remaining list. This is the popping loop inside
`DagWalk::frontier_next`, specialised to one end of the deque. -/
def pop_unvisited (visited : List Cid) : List Cid → Option (Cid × List Cid)
  | [] => none
  | c :: rest => if c ∈ visited then pop_unvisited visited rest else some (c, rest)

/-- Pop the next unvisited CID off the frontier and mark it visited
(models `DagWalk::frontier_next`). Breadth-first pops from the back of the
deque (the head of our list), depth-first from the front (the reversed head). -/
def DagWalk.frontier_next (w : DagWalk) : Option (Cid × DagWalk) :=
  if w.breadth_first then
    match pop_unvisited w.visited w.frontier with
    | none => none
    | some (c, rest) => some (c, ⟨rest, w.visited.insert c, w.breadth_first⟩)
  else
    match pop_unvisited w.visited w.frontier.reverse with
    | none => none
    | some (c, rest) => some (c, ⟨rest.reverse, w.visited.insert c, w.breadth_first⟩)

/-- One traversal step (models `DagWalk::next`): pop the next unvisited CID;
if the store has its block, push its not-yet-visited references onto the front
of the frontier (in our representation: append them in order) and yield
`Have`, otherwise leave the frontier alone and yield `Missing`. -/
def DagWalk.next (store : Store) (refs : Cid → List Cid) (w : DagWalk) :
    Option (TraversedItem × DagWalk) :=
  match w.frontier_next with
  | none => none
  | some (cid, w') =>
    if (store cid).isSome then
      let new_refs := (refs cid).filter fun c => c ∉ w'.visited
      some (.Have cid, ⟨w'.frontier ++ new_refs, w'.visited, w'.breadth_first⟩)
    else
      some (.Missing cid, w')

/-- Run the traversal for at most `fuel` steps, collecting the yielded items
(models draining `DagWalk::stream`). -/
def DagWalk.steps (store : Store) (refs : Cid → List Cid) : Nat → DagWalk → List TraversedItem
  | 0, _ => []
  | fuel + 1, w =>
    match DagWalk.next store refs w with
    | none => []
    | some (item, w') => item :: DagWalk.steps store refs fuel w'

/-- Incremental DAG verification state: the CIDs known to be missing (`want`)
and the CIDs available locally (`have`)
(models `incremental_verification::IncrementalDagVerification`).
The Rust `HashSet<Cid>` fields are modelled as duplicate-free lists. -/
structure IncrementalDagVerification where
  want_cids : List Cid
  have_cids : List Cid
  deriving DecidableEq, Repr

namespace IncrementalDagVerification

/-- Classify a CID (models `IncrementalDagVerification::block_state`). -/
def block_state (s : IncrementalDagVerification) (cid : Cid) : BlockState :=
  if cid ∈ s.want_cids then .Want
  else if cid ∈ s.have_cids then .Have
  else .Unexpected

/-- Mark a CID as wanted, removing it from the have set first if present
(models `IncrementalDagVerification::mark_as_want`). -/
def mark_as_want (s : IncrementalDagVerification) (want : Cid) : IncrementalDagVerification :=
  { want_cids := s.want_cids.insert want
    have_cids := s.have_cids.erase want }

/-- Mark a CID as had, removing it from the want set
(models `IncrementalDagVerification::mark_as_have`). -/
def mark_as_have (s : IncrementalDagVerification) (hv : Cid) : IncrementalDagVerification :=
  { want_cids := s.want_cids.erase hv
    have_cids := s.have_cids.insert hv }

/-- Apply the body of the `update_have_cids` loop to each traversed item in
order: local blocks are marked as had, missing ones as wanted. -/
def apply_items (s : IncrementalDagVerification) : List TraversedItem → IncrementalDagVerification
  | [] => s
  | .Have c :: rest => apply_items (s.mark_as_have c) rest
  | .Missing c :: rest => apply_items (s.mark_as_want c) rest

/-- Walk breadth-first from all wanted CIDs and update the want/have partition
(models `IncrementalDagVerification::update_have_cids`). -/
def update_have_cids (store : Store) (refs : Cid → List Cid) (fuel : Nat)
    (s : IncrementalDagVerification) : IncrementalDagVerification :=
  s.apply_items (DagWalk.steps store refs fuel (DagWalk.breadthFirst s.want_cids))

/-- Initiate incremental verification of the given roots: the want set starts
as the deduplicated roots, the have set empty, then `update_have_cids` runs
(models `IncrementalDagVerification::new`). -/
def new (store : Store) (refs : Cid → List Cid) (fuel : Nat)
    (roots : List Cid) : IncrementalDagVerification :=
  update_have_cids store refs fuel
    { want_cids := roots.foldl (fun acc c => acc.insert c) []
      have_cids := [] }

/-- Verify a block against its CID and store it
(models `IncrementalDagVerification::verify_and_store_block`).
The result carries the error (if any) together with the verification state and
the store after the call; mutation of the Rust receiver and block store is
modelled by returning both, so the early-error returns leave them unchanged. -/
def verify_and_store_block (hashers : Nat → Option (List Nat → List Nat))
    (refs : Cid → List Cid) (fuel : Nat) (s : IncrementalDagVerification)
    (cid : Cid) (bytes : List Nat) (store : Store) :
    Option Error × IncrementalDagVerification × Store :=
  let block_state := s.block_state cid
  if block_state ≠ .Want then
    (some (.ExpectedWantedBlock cid block_state), s, store)
  else
    match hashers cid.hashCode with
    | none => (some (.UnsupportedHashCode cid), s, store)
    | some hash_func =>
      let hash := hash_func bytes
      if hash ≠ cid.digest then
        (some (.DigestMismatch cid ⟨cid.codec, cid.hashCode, hash⟩), s, store)
      else
        let store' := put_keyed store cid bytes
        (none, update_have_cids store' refs fuel s, store')

end IncrementalDagVerification

/-- Information the receiving end sends to the sending end
(models `common::ReceiverState`). -/
structure ReceiverState where
  missing_subgraph_roots : List Cid
  have_cids_bloom : Option BloomFilter
  deriving DecidableEq, Repr

/-- Protocol configuration (models `common::Config`).
The `bloom_fpr` field is a floating-point function used only to size the bloom
filter; it is absorbed into the `build` parameter of `into_receiver_state`. -/
structure Config where
  receive_maximum : Nat
  max_block_size : Nat
  max_roots_per_round : Nat
  deriving DecidableEq, Repr

/-- Compute the receiver state of a verification state
(models `IncrementalDagVerification::into_receiver_state`):
the missing roots are the want set; no bloom is built when nothing is had or
nothing is missing, otherwise the bloom is built over the have set by `build`
(which models `BloomFilter::new_from_fpr_po2` plus the insertion loop,
including the floating-point `bloom_fpr` sizing). -/
def IncrementalDagVerification.into_receiver_state (build : List Cid → BloomFilter)
    (s : IncrementalDagVerification) : ReceiverState :=
  let missing_subgraph_roots := s.want_cids
  if s.have_cids.length = 0 then
    { missing_subgraph_roots, have_cids_bloom := none }
  else if missing_subgraph_roots.isEmpty then
    { missing_subgraph_roots, have_cids_bloom := none }
  else
    { missing_subgraph_roots, have_cids_bloom := some (build s.have_cids) }

/-- Decide whether the sender skips a block: the receiver's bloom contains the
CID's byte form and the CID is not a validated subgraph root
(models `common::should_block_be_skipped`). -/
def should_block_be_skipped (h : Nat → List Nat → Nat) (cid : Cid) (bloom : BloomFilter)
    (subgraph_roots : List Cid) : Bool :=
  bloom.contains h cid.to_bytes && !(subgraph_roots.contains cid)

/-- Replace an absent bloom by a one-byte all-zero bloom that contains nothing
(models `common::handle_missing_bloom`). -/
def handle_missing_bloom : Option BloomFilter → BloomFilter
  | some bloom => bloom
  | none => ⟨1, [0]⟩

/-- Walk breadth-first from the validated subgraph roots and emit the blocks
that are not skipped (models the loop of `common::stream_blocks_from_roots`,
started from an arbitrary walk state). The result is the list of emitted
blocks together with the error terminating the stream, if any: a `Missing`
item makes the `to_cid` call fail, and the block fetch of an emitted CID fails
when the store lacks it. -/
def stream_blocks_loop (h : Nat → List Nat → Nat) (store : Store) (refs : Cid → List Cid)
    (subgraph_roots : List Cid) (bloom : BloomFilter) :
    Nat → DagWalk → List (Cid × List Nat) × Option Error
  | 0, _ => ([], none)
  | fuel + 1, w =>
    match DagWalk.next store refs w with
    | none => ([], none)
    | some (item, w') =>
      match item with
      | .Missing cid => ([], some (.BlockStoreError cid))
      | .Have cid =>
        if should_block_be_skipped h cid bloom subgraph_roots then
          stream_blocks_loop h store refs subgraph_roots bloom fuel w'
        else
          match store cid with
          | none => ([], some (.BlockStoreError cid))
          | some bytes =>
            let (blocks, err) := stream_blocks_loop h store refs subgraph_roots bloom fuel w'
            ((cid, bytes) :: blocks, err)

/-- The block stream of the sending side (models `common::stream_blocks_from_roots`):
the walk starts breadth-first from the validated subgraph roots. -/
def stream_blocks_from_roots (h : Nat → List Nat → Nat) (store : Store) (refs : Cid → List Cid)
    (subgraph_roots : List Cid) (bloom : BloomFilter) (fuel : Nat) :
    List (Cid × List Nat) × Option Error :=
  stream_blocks_loop h store refs subgraph_roots bloom fuel (DagWalk.breadthFirst subgraph_roots)

/-- Keep only the CIDs of requested subgraph roots that are reachable from the
root (models `common::verify_missing_subgraph_roots`); a block missing from
the sender's store fails the walk via `to_cid`. -/
def verify_missing_subgraph_roots (root : Cid) (missing_subgraph_roots : List Cid)
    (store : Store) (refs : Cid → List Cid) (fuel : Nat) : Except Error (List Cid) :=
  collect (DagWalk.steps store refs fuel (DagWalk.breadthFirst [root]))
where
  collect : List TraversedItem → Except Error (List Cid)
    | [] => .ok []
    | .Missing cid :: _ => .error (.BlockStoreError cid)
    | .Have cid :: rest =>
      (collect rest).map fun found =>
        if missing_subgraph_roots.contains cid then cid :: found else found

/-- The sender's lazy block stream (models `common::block_send_block_stream`):
take the last receiver state (or a default asking for the root), validate the
missing subgraph roots against the DAG, default the bloom, and stream. -/
def block_send_block_stream (h : Nat → List Nat → Nat) (store : Store)
    (refs : Cid → List Cid) (fuel : Nat) (root : Cid) (last_state : Option ReceiverState) :
    Except Error (List (Cid × List Nat) × Option Error) :=
  let state := last_state.getD { missing_subgraph_roots := [root], have_cids_bloom := none }
  (verify_missing_subgraph_roots root state.missing_subgraph_roots store refs fuel).map
    fun subgraph_roots =>
      stream_blocks_from_roots h store refs subgraph_roots
        (handle_missing_bloom state.have_cids_bloom) fuel

/-- The while-loop of `common::write_blocks_into_car`: before each successive
block, reserve `64 + 4 + block.len` bytes and stop if the cumulative count
would exceed the limit; otherwise write the block and add the writer's
reported byte count (`frame_size`, a parameter abstracting what
`CarWriter::write` returns). Returns the blocks actually written. -/
def write_blocks_loop (size_limit : Option Nat) (frame_size : Cid → List Nat → Nat)
    (block_bytes : Nat) : List (Cid × List Nat) → List (Cid × List Nat)
  | [] => []
  | (cid, block) :: rest =>
    let added_bytes := 64 + 4 + block.length
    match size_limit with
    | some receive_limit =>
      if block_bytes + added_bytes > receive_limit then []
      else (cid, block) :: write_blocks_loop size_limit frame_size
        (block_bytes + frame_size cid block) rest
    | none => (cid, block) :: write_blocks_loop size_limit frame_size
        (block_bytes + frame_size cid block) rest

/-- Write a block stream into a CAR (models `common::write_blocks_into_car`).
If the stream is empty nothing at all is written (no header). Otherwise a CAR
writer with the first block's CID as header root is created and the first
block written unconditionally; the remaining blocks go through the size-limit
loop. `first_size` abstracts the byte count reported by the first
`CarWriter::write` call (which also flushes the header); the result is the
list of blocks written. -/
def write_blocks_into_car (size_limit : Option Nat)
    (first_size frame_size : Cid → List Nat → Nat) :
    List (Cid × List Nat) → List (Cid × List Nat)
  | [] => []
  | (cid, block) :: rest =>
    (cid, block) :: write_blocks_loop size_limit frame_size (first_size cid block) rest

/-- The CAR byte output corresponding to `write_blocks_into_car`:
an empty stream produces zero bytes and no header; otherwise the header frame
for the first block's CID followed by one frame per written block.
`header_bytes` and `frame_bytes` abstract the CARv1 encodings. -/
def write_blocks_into_car_bytes (size_limit : Option Nat)
    (first_size frame_size : Cid → List Nat → Nat)
    (header_bytes : Cid → List Nat) (frame_bytes : Cid → List Nat → List Nat)
    (blocks : List (Cid × List Nat)) : List Nat :=
  match blocks with
  | [] => []
  | (cid, _) :: _ =>
    header_bytes cid ++
      (write_blocks_into_car size_limit first_size frame_size blocks).flatMap
        fun (c, b) => frame_bytes c b

/-- Turn a block stream into a stream of CAR frames
(models `common::stream_car_frames`): an empty block stream yields an empty
frame stream; otherwise a header frame carrying the first block's CID,
then one frame per block. -/
def stream_car_frames (header_bytes : Cid → List Nat)
    (frame_bytes : Cid → List Nat → List Nat) :
    List (Cid × List Nat) → List (List Nat)
  | [] => []
  | (cid, block) :: rest =>
    header_bytes cid :: frame_bytes cid block :: rest.map fun (c, b) => frame_bytes c b

/-- The non-streaming sending entry point (models `common::block_send`):
stream blocks and write them into a CAR bounded by `config.receive_maximum`.
Returns the written blocks, or the error that interrupted the stream. -/
def block_send (h : Nat → List Nat → Nat) (store : Store) (refs : Cid → List Cid)
    (fuel : Nat) (first_size frame_size : Cid → List Nat → Nat)
    (root : Cid) (last_state : Option ReceiverState) (config : Config) :
    Except Error (List (Cid × List Nat)) :=
  (block_send_block_stream h store refs fuel root last_state).bind fun (blocks, err) =>
    match err with
    | some e => .error e
    | none => .ok (write_blocks_into_car (some config.receive_maximum) first_size frame_size blocks)

/-- Take a block and store it iff it is currently wanted; report its block
state (models `common::read_and_verify_block`). The verification state and
store are threaded through explicitly. -/
def read_and_verify_block (hashers : Nat → Option (List Nat → List Nat))
    (refs : Cid → List Cid) (fuel : Nat) (s : IncrementalDagVerification)
    (cid : Cid) (block : List Nat) (store : Store) :
    Except Error (BlockState × IncrementalDagVerification × Store) :=
  match s.block_state cid with
  | .Have => .ok (.Have, s, store)
  | .Unexpected => .ok (.Unexpected, s, store)
  | .Want =>
    match s.verify_and_store_block hashers refs fuel cid block store with
    | (some e, _, _) => .error e
    | (none, s', store') => .ok (.Want, s', store')

/-- The frame-consuming loop of `common::block_receive_block_stream`:
an oversized block fails the whole call with `BlockSizeExceeded`; a wanted
block is verified, stored and the loop continues; a `Have` or `Unexpected`
block stops the loop, and the receiver state of the current verification
state is returned. -/
def block_receive_loop (hashers : Nat → Option (List Nat → List Nat))
    (refs : Cid → List Cid) (fuel : Nat) (build : List Cid → BloomFilter) (config : Config)
    (s : IncrementalDagVerification) (store : Store) :
    List (Cid × List Nat) → Except Error ReceiverState
  | [] => .ok (s.into_receiver_state build)
  | (cid, block) :: rest =>
    if block.length > config.max_block_size then
      .error (.BlockSizeExceeded cid block.length config.max_block_size)
    else
      match read_and_verify_block hashers refs fuel s cid block store with
      | .error e => .error e
      | .ok (.Have, s', _) => .ok (s'.into_receiver_state build)
      | .ok (.Unexpected, s', _) => .ok (s'.into_receiver_state build)
      | .ok (.Want, s', store') => block_receive_loop hashers refs fuel build config s' store' rest

/-- Consume a stream of blocks, verifying and storing them
(models `common::block_receive_block_stream`): initialize verification from
the root, then run the receive loop. -/
def block_receive_block_stream (hashers : Nat → Option (List Nat → List Nat))
    (refs : Cid → List Cid) (fuel : Nat) (build : List Cid → BloomFilter) (config : Config)
    (root : Cid) (frames : List (Cid × List Nat)) (store : Store) : Except Error ReceiverState :=
  block_receive_loop hashers refs fuel build config
    (IncrementalDagVerification.new store refs fuel [root]) store frames

/-- Consume a CAR file as a stream (models `common::block_receive_car_stream`):
parse the CAR into frames (`parse` abstracts `CarReader`; its failures are
`CarFileError`s) and feed them to the block stream receiver. -/
def block_receive_car_stream (hashers : Nat → Option (List Nat → List Nat))
    (refs : Cid → List Cid) (fuel : Nat) (build : List Cid → BloomFilter)
    (parse : List Nat → Option (List (Cid × List Nat))) (config : Config)
    (root : Cid) (bytes : List Nat) (store : Store) : Except Error ReceiverState :=
  match parse bytes with
  | none => .error .CarFileError
  | some frames => block_receive_block_stream hashers refs fuel build config root frames store

/-- Newtype around the bytes of a CAR file (models `common::CarFile`). -/
structure CarFile where
  bytes : List Nat
  deriving DecidableEq, Repr

/-- The receiving entry point (models `common::block_receive`):
with a CAR, first enforce `receive_maximum` on the raw byte length (before any
parsing or store write), then receive the CAR stream; without a CAR, build
verification from the single root. In both cases the missing subgraph roots
of the result are truncated to `config.max_roots_per_round`. -/
def block_receive (hashers : Nat → Option (List Nat → List Nat))
    (refs : Cid → List Cid) (fuel : Nat) (build : List Cid → BloomFilter)
    (parse : List Nat → Option (List (Cid × List Nat))) (config : Config)
    (root : Cid) (last_car : Option CarFile) (store : Store) : Except Error ReceiverState :=
  let receiver_state : Except Error ReceiverState :=
    match last_car with
    | some car =>
      if car.bytes.length > config.receive_maximum then
        .error (.TooManyBytes config.receive_maximum car.bytes.length)
      else
        block_receive_car_stream hashers refs fuel build parse config root car.bytes store
    | none =>
      .ok ((IncrementalDagVerification.new store refs fuel [root]).into_receiver_state build)
  receiver_state.map fun rs =>
    { rs with missing_subgraph_roots := rs.missing_subgraph_roots.take config.max_roots_per_round }

/-- Wire message initiating pull requests (models `messages::PullRequest`). -/
structure PullRequest where
  resources : List Cid
  bloom_hash_count : Nat
  bloom_bytes : List Nat
  deriving DecidableEq, Repr

/-- Wire message answering push requests (models `messages::PushResponse`). -/
structure PushResponse where
  subgraph_roots : List Cid
  bloom_hash_count : Nat
  bloom_bytes : List Nat
  deriving DecidableEq, Repr

/-- Serialize an optional bloom into wire fields
(models `ReceiverState::bloom_serialize`). The wire hash count is a `u32`, so
the crate's `usize` hash count is truncated modulo 2^32. -/
def ReceiverState.bloom_serialize : Option BloomFilter → Nat × List Nat
  | some bloom => (bloom.hash_count % 2 ^ 32, bloom.bytes)
  | none => (3, [])

/-- Deserialize wire fields into an optional bloom
(models `ReceiverState::bloom_deserialize`): empty bytes mean no bloom. -/
def ReceiverState.bloom_deserialize (hash_count : Nat) (bytes : List Nat) : Option BloomFilter :=
  if bytes.isEmpty then none else some ⟨hash_count, bytes⟩

/-- Convert a push response into a receiver state
(models `impl From<PushResponse> for ReceiverState`). -/
def ReceiverState.from_push_response (push : PushResponse) : ReceiverState :=
  { missing_subgraph_roots := push.subgraph_roots
    have_cids_bloom := ReceiverState.bloom_deserialize push.bloom_hash_count push.bloom_bytes }

/-- Convert a pull request into a receiver state
(models `impl From<PullRequest> for ReceiverState`). -/
def ReceiverState.from_pull_request (pull : PullRequest) : ReceiverState :=
  { missing_subgraph_roots := pull.resources
    have_cids_bloom := ReceiverState.bloom_deserialize pull.bloom_hash_count pull.bloom_bytes }

/-- Convert a receiver state into a push response
(models `impl From<ReceiverState> for PushResponse`). -/
def PushResponse.from_receiver_state (s : ReceiverState) : PushResponse :=
  let (hash_count, bytes) := ReceiverState.bloom_serialize s.have_cids_bloom
  { subgraph_roots := s.missing_subgraph_roots
    bloom_hash_count := hash_count
    bloom_bytes := bytes }

/-- Convert a receiver state into a pull request
(models `impl From<ReceiverState> for PullRequest`). -/
def PullRequest.from_receiver_state (s : ReceiverState) : PullRequest :=
  let (hash_count, bytes) := ReceiverState.bloom_serialize s.have_cids_bloom
  { resources := s.missing_subgraph_roots
    bloom_hash_count := hash_count
    bloom_bytes := bytes }

/-- The CIDs of the leading run of locally available blocks of a traversal:
collection stops at the first `Missing` item (whose `to_cid` conversion makes
the sender's block stream fail). -/
def take_have_cids : List TraversedItem → List Cid
  | [] => []
  | .Have c :: rest => c :: take_have_cids rest
  | .Missing _ :: _ => []

/-- Well-formedness of a verification state: both CID lists are
duplicate-free (they model Rust `HashSet`s) and the want and have sets are
disjoint. The third component is the disjointness invariant of the spec. -/
def IncrementalDagVerification.WellFormed (s : IncrementalDagVerification) : Prop :=
  s.want_cids.Nodup ∧ s.have_cids.Nodup ∧ ∀ c ∈ s.want_cids, c ∉ s.have_cids

/-! Concrete fixtures used to instantiate theorems on small inputs. -/

/-- A sample CID whose digest is the byte count of its two-byte block. -/
def cidA : Cid := ⟨0, 0, [2]⟩

/-- A second sample CID, distinct from `cidA`. -/
def cidB : Cid := ⟨1, 0, [7]⟩

/-- A sample CID with an unknown multihash code. -/
def cidC : Cid := ⟨2, 5, [3]⟩

/-- The empty block store. -/
def store0 : Store := fun _ => none

/-- A store holding a two-byte block under `cidA`. -/
def store1 : Store := fun c => if c = cidA then some [9, 9] else none

/-- A reference extractor returning no links. -/
def refs0 : Cid → List Cid := fun _ => []

/-- A hash oracle knowing only multihash code 0, which digests a block to its
length. -/
def hashers0 : Nat → Option (List Nat → List Nat) := fun code =>
  match code with
  | 0 => some fun b => [b.length]
  | _ => none

/-- A trivial bloom builder. -/
def build0 : List Cid → BloomFilter := fun _ => ⟨1, [0]⟩

/-- A CAR parser that always yields an empty frame list. -/
def parse0 : List Nat → Option (List (Cid × List Nat)) := fun _ => some []

/-- A trivial bloom hash family. -/
def h0 : Nat → List Nat → Nat := fun _ _ => 0

/-- A trivial frame size oracle. -/
def size0 : Cid → List Nat → Nat := fun _ b => b.length + 10

/-- A trivial frame encoder. -/
def enc0 : Cid → List Nat → List Nat := fun c b => c.to_bytes ++ b

/-- A trivial header encoder. -/
def hdr0 : Cid → List Nat := fun c => 1 :: c.to_bytes

/-! Basic lemmas about the traversal. -/

lemma pop_unvisited_some (vis : List Cid) :
    ∀ l x rest, pop_unvisited vis l = some (x, rest) →
      ∃ pre, l = pre ++ x :: rest ∧ (∀ c ∈ pre, c ∈ vis) ∧ x ∉ vis := by
  intro l
  induction l with
  | nil => intro x rest h; simp [pop_unvisited] at h
  | cons c t ih =>
    intro x rest h
    by_cases hc : c ∈ vis
    · simp only [pop_unvisited, if_pos hc] at h
      obtain ⟨pre, hpre, hmem, hx⟩ := ih x rest h
      exact ⟨c :: pre, by simp [hpre], by simpa [hc] using hmem, hx⟩
    · simp only [pop_unvisited, if_neg hc] at h
      obtain ⟨rfl, rfl⟩ := Prod.mk.injEq _ _ _ _ ▸ Option.some.inj h
      exact ⟨[], by simp, by simp, hc⟩

lemma pop_unvisited_append (vis : List Cid) :
    ∀ (R F : List Cid) x rest, pop_unvisited vis (R ++ F) = some (x, rest) →
      (∃ R1 R2, R = R1 ++ x :: R2 ∧ (∀ c ∈ R1, c ∈ vis) ∧ rest = R2 ++ F) ∨
      ((∀ c ∈ R, c ∈ vis) ∧ pop_unvisited vis F = some (x, rest)) := by
  intro R
  induction R with
  | nil => intro F x rest h; exact Or.inr ⟨by simp, h⟩
  | cons r R' ih =>
    intro F x rest h
    by_cases hr : r ∈ vis
    · simp only [List.cons_append, pop_unvisited, if_pos hr] at h
      rcases ih F x rest h with ⟨R1, R2, hR, hmem, hrest⟩ | ⟨hall, hF⟩
      · exact Or.inl ⟨r :: R1, R2, by simp [hR], by simpa [hr] using hmem, hrest⟩
      · exact Or.inr ⟨by simpa [hr] using hall, hF⟩
    · simp only [List.cons_append, pop_unvisited, if_neg hr] at h
      obtain ⟨rfl, rfl⟩ := Prod.mk.injEq _ _ _ _ ▸ Option.some.inj h
      exact Or.inl ⟨[], R', by simp, by simp, rfl⟩

lemma frontier_next_some {w : DagWalk} {x : Cid} {w' : DagWalk}
    (h : w.frontier_next = some (x, w')) :
    x ∉ w.visited ∧ w'.visited = w.visited.insert x ∧ w'.breadth_first = w.breadth_first := by
  unfold DagWalk.frontier_next at h
  by_cases hbf : w.breadth_first <;> simp only [hbf, if_true, if_false, Bool.false_eq_true] at h
  · match hp : pop_unvisited w.visited w.frontier with
    | none => rw [hp] at h; cases h
    | some (c, rest) =>
      rw [hp] at h
      simp only [Option.some.injEq, Prod.mk.injEq] at h
      obtain ⟨rfl, rfl⟩ := h
      obtain ⟨pre, _, _, hx⟩ := pop_unvisited_some _ _ _ _ hp
      exact ⟨hx, rfl, hbf.symm⟩
  · match hp : pop_unvisited w.visited w.frontier.reverse with
    | none => rw [hp] at h; cases h
    | some (c, rest) =>
      rw [hp] at h
      simp only [Option.some.injEq, Prod.mk.injEq] at h
      obtain ⟨rfl, rfl⟩ := h
      obtain ⟨pre, _, _, hx⟩ := pop_unvisited_some _ _ _ _ hp
      exact ⟨hx, rfl, ((Bool.not_eq_true _).mp hbf).symm⟩

lemma next_some {store : Store} {refs : Cid → List Cid} {w : DagWalk}
    {it : TraversedItem} {w' : DagWalk}
    (h : DagWalk.next store refs w = some (it, w')) :
    it.cidOf ∉ w.visited ∧ w'.visited = w.visited.insert it.cidOf ∧
      w'.breadth_first = w.breadth_first := by
  unfold DagWalk.next at h
  match hf : w.frontier_next with
  | none => rw [hf] at h; cases h
  | some (cid, w1) =>
    rw [hf] at h
    obtain ⟨hx, hv, hb⟩ := frontier_next_some hf
    by_cases hs : (store cid).isSome <;>
      simp only [hs, if_true, if_false, Bool.false_eq_true, Option.some.injEq,
        Prod.mk.injEq] at h <;>
      obtain ⟨rfl, rfl⟩ := h <;>
      exact ⟨hx, hv, hb⟩

lemma steps_avoid_visited (store : Store) (refs : Cid → List Cid) :
    ∀ (fuel : Nat) (w : DagWalk) (c : Cid),
      c ∈ (DagWalk.steps store refs fuel w).map TraversedItem.cidOf → c ∉ w.visited := by
  intro fuel
  induction fuel with
  | zero => intro w c h; simp [DagWalk.steps] at h
  | succ n ih =>
    intro w c h
    unfold DagWalk.steps at h
    match hn : DagWalk.next store refs w with
    | none => rw [hn] at h; simp at h
    | some (it, w') =>
      rw [hn] at h
      obtain ⟨hx, hv, _⟩ := next_some hn
      simp only [List.map_cons, List.mem_cons] at h
      rcases h with rfl | h
      · exact hx
      · intro hc
        exact ih w' c h (by rw [hv]; exact List.mem_insert_iff.mpr (Or.inr hc))

lemma steps_nodup (store : Store) (refs : Cid → List Cid) :
    ∀ (fuel : Nat) (w : DagWalk),
      ((DagWalk.steps store refs fuel w).map TraversedItem.cidOf).Nodup := by
  intro fuel
  induction fuel with
  | zero => intro w; simp [DagWalk.steps]
  | succ n ih =>
    intro w
    unfold DagWalk.steps
    match hn : DagWalk.next store refs w with
    | none => simp
    | some (it, w') =>
      obtain ⟨_, hv, _⟩ := next_some hn
      simp only [List.map_cons, List.nodup_cons]
      refine ⟨fun hmem => ?_, ih w'⟩
      exact steps_avoid_visited store refs n w' it.cidOf hmem
        (by rw [hv]; exact List.mem_insert_iff.mpr (Or.inl rfl))

lemma next_missing_frontier {store : Store} {refs : Cid → List Cid} {w : DagWalk}
    {c : Cid} {w' : DagWalk} (h : DagWalk.next store refs w = some (.Missing c, w')) :
    w'.frontier.Sublist w.frontier ∧ w'.frontier.length < w.frontier.length := by
  unfold DagWalk.next at h
  match hf : w.frontier_next with
  | none => rw [hf] at h; cases h
  | some (cid, w1) =>
    rw [hf] at h
    by_cases hs : (store cid).isSome <;>
      simp only [hs, if_true, if_false, Bool.false_eq_true] at h
    · cases h
    · simp only [Option.some.injEq, Prod.mk.injEq, TraversedItem.Missing.injEq] at h
      obtain ⟨rfl, rfl⟩ := h
      unfold DagWalk.frontier_next at hf
      by_cases hbf : w.breadth_first <;>
        simp only [hbf, if_true, if_false, Bool.false_eq_true] at hf
      · match hp : pop_unvisited w.visited w.frontier with
        | none => rw [hp] at hf; cases hf
        | some (x, rest) =>
          rw [hp] at hf
          simp only [Option.some.injEq, Prod.mk.injEq] at hf
          obtain ⟨rfl, rfl⟩ := hf
          obtain ⟨pre, hsplit, _, _⟩ := pop_unvisited_some _ _ _ _ hp
          constructor
          · rw [hsplit]
            exact ((List.sublist_cons_self _ _).trans (List.sublist_append_right _ _))
          · rw [hsplit]; simp; omega
      · match hp : pop_unvisited w.visited w.frontier.reverse with
        | none => rw [hp] at hf; cases hf
        | some (x, rest) =>
          rw [hp] at hf
          simp only [Option.some.injEq, Prod.mk.injEq] at hf
          obtain ⟨rfl, rfl⟩ := hf
          obtain ⟨pre, hsplit, _, _⟩ := pop_unvisited_some _ _ _ _ hp
          have hw : w.frontier = rest.reverse ++ x :: pre.reverse := by
            have h9 := congrArg List.reverse hsplit
            simpa [List.reverse_append] using h9
          constructor
          · have h9 : rest.reverse.Sublist w.frontier := by
              rw [hw]; exact List.sublist_append_left _ _
            simpa using h9
          · have h9 := congrArg List.length hw
            simp at h9
            simp [h9]


lemma next_bfs_shape {store : Store} {refs : Cid → List Cid} {w : DagWalk}
    {it : TraversedItem} {w' : DagWalk} (hbf : w.breadth_first = true)
    (h : DagWalk.next store refs w = some (it, w')) :
    ∃ rest extra, pop_unvisited w.visited w.frontier = some (it.cidOf, rest) ∧
      w'.visited = w.visited.insert it.cidOf ∧ w'.breadth_first = true ∧
      w'.frontier = rest ++ extra := by
  unfold DagWalk.next DagWalk.frontier_next at h
  rw [hbf] at h
  simp only [if_true] at h
  match hp : pop_unvisited w.visited w.frontier with
  | none => rw [hp] at h; cases h
  | some (c, rest) =>
    rw [hp] at h
    by_cases hs : (store c).isSome <;>
      simp only [hs, if_true, if_false, Bool.false_eq_true, Option.some.injEq,
        Prod.mk.injEq] at h <;> obtain ⟨rfl, rfl⟩ := h
    · exact ⟨rest, _, by simp [hp, TraversedItem.cidOf], rfl, rfl, rfl⟩
    · exact ⟨rest, [], by simp [hp, TraversedItem.cidOf], rfl, rfl, by simp⟩

lemma steps_roots_first (store : Store) (refs : Cid → List Cid) (roots : List Cid) :
    ∀ (fuel : Nat) (w : DagWalk) (R F : List Cid),
      w.breadth_first = true → w.frontier = R ++ F → (∀ c ∈ R, c ∈ roots) →
      (∀ c ∈ roots, c ∈ w.visited ∨ c ∈ R) →
      ∃ t1 t2, (DagWalk.steps store refs fuel w).map TraversedItem.cidOf = t1 ++ t2 ∧
        (∀ c ∈ t1, c ∈ roots) ∧ (∀ c ∈ t2, c ∉ roots) := by
  intro fuel
  induction fuel with
  | zero => intro w R F _ _ _ _; exact ⟨[], [], by simp [DagWalk.steps], by simp, by simp⟩
  | succ n ih =>
    intro w R F hbf hsplit hR hroots
    unfold DagWalk.steps
    match hn : DagWalk.next store refs w with
    | none => exact ⟨[], [], by simp [hn], by simp, by simp⟩
    | some (it, w') =>
      obtain ⟨rest, extra, hpop, hvis, hbf', hfr⟩ := next_bfs_shape hbf hn
      rw [hsplit] at hpop
      rcases pop_unvisited_append _ _ _ _ _ hpop with
        ⟨R1, R2, hRsplit, hR1vis, hrest⟩ | ⟨hRvis, hpopF⟩
      · -- the popped CID is one of the remaining initial roots
        have hx_root : it.cidOf ∈ roots := hR _ (by rw [hRsplit]; simp)
        have hfr' : w'.frontier = R2 ++ (F ++ extra) := by rw [hfr, hrest]; simp
        have hR2 : ∀ c ∈ R2, c ∈ roots := fun c hc => hR c (by rw [hRsplit]; simp [hc])
        have hroots' : ∀ c ∈ roots, c ∈ w'.visited ∨ c ∈ R2 := by
          intro c hc
          rcases hroots c hc with hv | hmem
          · exact Or.inl (by rw [hvis]; exact List.mem_insert_iff.mpr (Or.inr hv))
          · rw [hRsplit] at hmem
            simp only [List.mem_append, List.mem_cons] at hmem
            rcases hmem with h1 | h1 | h1
            · exact Or.inl (by rw [hvis]; exact List.mem_insert_iff.mpr (Or.inr (hR1vis _ h1)))
            · exact Or.inl (by rw [hvis, h1]; exact List.mem_insert_iff.mpr (Or.inl rfl))
            · exact Or.inr h1
        obtain ⟨t1, t2, heq, ht1, ht2⟩ := ih w' R2 (F ++ extra) hbf' hfr' hR2 hroots'
        refine ⟨it.cidOf :: t1, t2, ?_, ?_, ht2⟩
        · simp [hn, heq]
        · simpa [hx_root] using ht1
      · -- all initial roots are already visited: nothing yielded from now on is a root
        obtain ⟨preF, _, _, hxvis⟩ := pop_unvisited_some _ _ _ _ hpopF
        have hroots_vis : ∀ c ∈ roots, c ∈ w'.visited := by
          intro c hc
          rcases hroots c hc with hv | hmem
          · rw [hvis]; exact List.mem_insert_iff.mpr (Or.inr hv)
          · rw [hvis]; exact List.mem_insert_iff.mpr (Or.inr (hRvis _ hmem))
        have hx_not_root : it.cidOf ∉ roots := by
          intro hc
          rcases hroots _ hc with hv | hmem
          · exact hxvis hv
          · exact hxvis (hRvis _ hmem)
        refine ⟨[], it.cidOf :: (DagWalk.steps store refs n w').map TraversedItem.cidOf,
          by simp [hn], by simp, ?_⟩
        intro c hc
        rcases List.mem_cons.mp hc with rfl | hc'
        · exact hx_not_root
        · intro hcroot
          exact steps_avoid_visited store refs n w' c hc' (hroots_vis c hcroot)

/-- C9: for every DAG walk over any store and cache, each CID is yielded at
most once across the entire traversal; a Missing item never extends the
frontier (the missing block's links are not followed, and the frontier only
shrinks); and in a breadth-first walk every root is yielded before any
non-root descendant (the yielded CID sequence is a block of roots followed by
a block of non-roots). -/
theorem dag_walk_guarantees :
    (∀ (store : Store) (refs : Cid → List Cid) (fuel : Nat) (w : DagWalk),
      ((DagWalk.steps store refs fuel w).map TraversedItem.cidOf).Nodup) ∧
    (∀ (store : Store) (refs : Cid → List Cid) (w : DagWalk) (c : Cid) (w' : DagWalk),
      DagWalk.next store refs w = some (.Missing c, w') →
      w'.frontier.Sublist w.frontier ∧ w'.frontier.length < w.frontier.length) ∧
    (∀ (store : Store) (refs : Cid → List Cid) (fuel : Nat) (roots : List Cid),
      ∃ t1 t2,
        (DagWalk.steps store refs fuel (DagWalk.breadthFirst roots)).map TraversedItem.cidOf =
          t1 ++ t2 ∧ (∀ c ∈ t1, c ∈ roots) ∧ (∀ c ∈ t2, c ∉ roots)) := by
  refine ⟨steps_nodup, fun _ _ _ _ _ h => next_missing_frontier h, ?_⟩
  intro store refs fuel roots
  exact steps_roots_first store refs roots fuel (DagWalk.breadthFirst roots) roots.reverse []
    rfl (by simp [DagWalk.breadthFirst, DagWalk.new]) (by simp)
    (fun c hc => Or.inr (List.mem_reverse.mpr hc))

lemma next_have_store_isSome {store : Store} {refs : Cid → List Cid} {w : DagWalk}
    {c : Cid} {w' : DagWalk} (h : DagWalk.next store refs w = some (.Have c, w')) :
    (store c).isSome := by
  unfold DagWalk.next at h
  match hf : w.frontier_next with
  | none => rw [hf] at h; cases h
  | some (cid, w1) =>
    rw [hf] at h
    by_cases hs : (store cid).isSome <;>
      simp only [hs, if_true, if_false, Bool.false_eq_true, Option.some.injEq,
        Prod.mk.injEq, TraversedItem.Have.injEq] at h
    · obtain ⟨rfl, _⟩ := h
      exact hs
    · exact absurd h.1 (by intro h1; cases h1)

lemma stream_blocks_loop_eq (h : Nat → List Nat → Nat) (store : Store)
    (refs : Cid → List Cid) (subgraph_roots : List Cid) (bloom : BloomFilter) :
    ∀ (fuel : Nat) (w : DagWalk),
      (stream_blocks_loop h store refs subgraph_roots bloom fuel w).1 =
        (take_have_cids (DagWalk.steps store refs fuel w)).filterMap
          fun c => if should_block_be_skipped h c bloom subgraph_roots then none
                   else (store c).map fun b => (c, b) := by
  intro fuel
  induction fuel with
  | zero => intro w; simp [stream_blocks_loop, DagWalk.steps, take_have_cids]
  | succ n ih =>
    intro w
    unfold stream_blocks_loop DagWalk.steps
    match hn : DagWalk.next store refs w with
    | none => simp [take_have_cids]
    | some (it, w') =>
      match it with
      | .Missing c => simp [take_have_cids]
      | .Have c =>
        simp only [take_have_cids, List.filterMap_cons]
        by_cases hskip : should_block_be_skipped h c bloom subgraph_roots
        · rw [if_pos hskip]
          simp only [hskip, if_true]
          exact ih w'
        · rw [if_neg hskip]
          simp only [hskip, if_false, Bool.false_eq_true]
          match hsc : store c with
          | none =>
            exact absurd (next_have_store_isSome hn) (by simp [hsc])
          | some bytes =>
            simp only [Option.map_some]
            have := ih w'
            cases hrec : stream_blocks_loop h store refs subgraph_roots bloom n w' with
            | mk blocks err =>
              rw [hrec] at this
              simpa using this

/-- C2: during block sending, a CID yielded by the DAG walk is skipped, with
the walk continuing past it, exactly when the receiver's bloom contains the
CID's byte form and the CID is not a validated missing subgraph root: the
emitted blocks are the walked locally-available CIDs filtered by the negation
of `should_block_be_skipped`; a validated subgraph root is never skipped, even
when the bloom contains it; and with no bloom provided, the defaulted empty
bloom contains nothing, so nothing is skipped. -/
theorem sender_skip_rule :
    (∀ (h : Nat → List Nat → Nat) (store : Store) (refs : Cid → List Cid)
        (subgraph_roots : List Cid) (bloom : BloomFilter) (fuel : Nat) (w : DagWalk),
      (stream_blocks_loop h store refs subgraph_roots bloom fuel w).1 =
        (take_have_cids (DagWalk.steps store refs fuel w)).filterMap
          fun c => if should_block_be_skipped h c bloom subgraph_roots then none
                   else (store c).map fun b => (c, b)) ∧
    (∀ (h : Nat → List Nat → Nat) (c : Cid) (bloom : BloomFilter) (subgraph_roots : List Cid),
      c ∈ subgraph_roots → should_block_be_skipped h c bloom subgraph_roots = false) ∧
    (∀ (h : Nat → List Nat → Nat) (c : Cid) (subgraph_roots : List Cid),
      should_block_be_skipped h c (handle_missing_bloom none) subgraph_roots = false) := by
  refine ⟨stream_blocks_loop_eq, ?_, ?_⟩
  · intro h c bloom subgraph_roots hmem
    simp [should_block_be_skipped, hmem]
  · intro h c subgraph_roots
    have hlt : h 0 c.to_bytes % 8 < 8 := Nat.mod_lt _ (by norm_num)
    simp [should_block_be_skipped, handle_missing_bloom, BloomFilter.contains, bit_at,
      Nat.div_eq_of_lt hlt]

/-- Witness for C2 at concrete inputs: a walk over a one-block store, a bloom
with every bit set that still does not suppress the subgraph root, and the
defaulted bloom skipping nothing. -/
theorem sender_skip_rule_witness :
    ((stream_blocks_loop h0 store1 refs0 [cidA] (handle_missing_bloom none) 2
        (DagWalk.breadthFirst [cidA])).1 =
      (take_have_cids (DagWalk.steps store1 refs0 2 (DagWalk.breadthFirst [cidA]))).filterMap
        fun c => if should_block_be_skipped h0 c (handle_missing_bloom none) [cidA] then none
                 else (store1 c).map fun b => (c, b)) ∧
    should_block_be_skipped h0 cidA ⟨1, [255]⟩ [cidA] = false ∧
    should_block_be_skipped h0 cidA (handle_missing_bloom none) [cidA] = false := by
  have T := sender_skip_rule
  exact ⟨T.1 h0 store1 refs0 [cidA] (handle_missing_bloom none) 2 (DagWalk.breadthFirst [cidA]),
    T.2.1 h0 cidA ⟨1, [255]⟩ [cidA] (by decide), T.2.2 h0 cidA [cidA]⟩

/-- Witness for C9 at concrete inputs: a two-step walk over the empty store
from a single root, whose first step yields that root as missing and leaves
the frontier empty. -/
theorem dag_walk_guarantees_witness :
    ((DagWalk.steps store0 refs0 2 (DagWalk.breadthFirst [cidA])).map
      TraversedItem.cidOf).Nodup ∧
    ((⟨[], [cidA], true⟩ : DagWalk).frontier.Sublist (DagWalk.breadthFirst [cidA]).frontier ∧
      (⟨[], [cidA], true⟩ : DagWalk).frontier.length <
        (DagWalk.breadthFirst [cidA]).frontier.length) ∧
    (∃ t1 t2,
      (DagWalk.steps store0 refs0 2 (DagWalk.breadthFirst [cidA])).map TraversedItem.cidOf =
        t1 ++ t2 ∧ (∀ c ∈ t1, c ∈ [cidA]) ∧ (∀ c ∈ t2, c ∉ [cidA])) := by
  have T := dag_walk_guarantees
  exact ⟨T.1 store0 refs0 2 (DagWalk.breadthFirst [cidA]),
    T.2.1 store0 refs0 (DagWalk.breadthFirst [cidA]) cidA ⟨[], [cidA], true⟩ (by rfl),
    T.2.2 store0 refs0 2 [cidA]⟩

/-- C10: when the sender's block stream yields no blocks (in particular when
every walked CID is skipped by the bloom), the CAR writer emits nothing at
all: no bytes, no CARv1 header, and the CAR frame stream is empty. -/
theorem empty_block_stream_empty_car :
    (∀ (size_limit : Option Nat) (first_size frame_size : Cid → List Nat → Nat),
      write_blocks_into_car size_limit first_size frame_size [] = []) ∧
    (∀ (size_limit : Option Nat) (first_size frame_size : Cid → List Nat → Nat)
        (header_bytes : Cid → List Nat) (frame_bytes : Cid → List Nat → List Nat),
      write_blocks_into_car_bytes size_limit first_size frame_size header_bytes
        frame_bytes [] = []) ∧
    (∀ (header_bytes : Cid → List Nat) (frame_bytes : Cid → List Nat → List Nat),
      stream_car_frames header_bytes frame_bytes [] = []) ∧
    (∀ (h : Nat → List Nat → Nat) (store : Store) (refs : Cid → List Cid)
        (subgraph_roots : List Cid) (bloom : BloomFilter) (fuel : Nat),
      (∀ c ∈ take_have_cids
          (DagWalk.steps store refs fuel (DagWalk.breadthFirst subgraph_roots)),
        should_block_be_skipped h c bloom subgraph_roots = true) →
      (stream_blocks_from_roots h store refs subgraph_roots bloom fuel).1 = [] ∧
      ∀ (size_limit : Option Nat) (first_size frame_size : Cid → List Nat → Nat)
          (header_bytes : Cid → List Nat) (frame_bytes : Cid → List Nat → List Nat),
        write_blocks_into_car_bytes size_limit first_size frame_size header_bytes frame_bytes
          (stream_blocks_from_roots h store refs subgraph_roots bloom fuel).1 = []) := by
  refine ⟨fun _ _ _ => rfl, fun _ _ _ _ _ => rfl, fun _ _ => rfl, ?_⟩
  intro h store refs subgraph_roots bloom fuel hall
  have hempty : (stream_blocks_from_roots h store refs subgraph_roots bloom fuel).1 = [] := by
    rw [stream_blocks_from_roots, stream_blocks_loop_eq]
    exact List.filterMap_eq_nil_iff.mpr fun c hc => by rw [hall c hc]; rfl
  exact ⟨hempty, fun _ _ _ _ _ => by rw [hempty]; rfl⟩

/-- Witness for C10 at concrete inputs: a walk whose only item is a missing
root yields no locally available CIDs, so the skip hypothesis holds vacuously
and both the block list and the CAR bytes are empty. -/
theorem empty_block_stream_empty_car_witness :
    write_blocks_into_car (some 100) size0 size0 [] = [] ∧
    write_blocks_into_car_bytes (some 100) size0 size0 hdr0 enc0 [] = [] ∧
    stream_car_frames hdr0 enc0 [] = [] ∧
    ((stream_blocks_from_roots h0 store0 refs0 [cidB] ⟨1, [255]⟩ 2).1 = [] ∧
      ∀ (size_limit : Option Nat) (first_size frame_size : Cid → List Nat → Nat)
          (header_bytes : Cid → List Nat) (frame_bytes : Cid → List Nat → List Nat),
        write_blocks_into_car_bytes size_limit first_size frame_size header_bytes frame_bytes
          (stream_blocks_from_roots h0 store0 refs0 [cidB] ⟨1, [255]⟩ 2).1 = []) := by
  have T := empty_block_stream_empty_car
  exact ⟨T.1 (some 100) size0 size0, T.2.1 (some 100) size0 size0 hdr0 enc0,
    T.2.2.1 hdr0 enc0, T.2.2.2 h0 store0 refs0 [cidB] ⟨1, [255]⟩ 2 (by decide)⟩

/-- C1: for every verification state and block, `verify_and_store_block` fails
with `ExpectedWantedBlock` when the block's state is not `Want`; otherwise
fails with `UnsupportedHashCode` when the CID's multihash code is unknown;
otherwise fails with `DigestMismatch` when hashing the bytes does not yield
the CID's digest; in every failing case nothing is written to the store and
the want/have sets are unchanged; and only when all checks pass is the block
stored via `put_keyed` and the state refreshed via `update_have_cids`. -/
theorem verify_and_store_block_cases
    (hashers : Nat → Option (List Nat → List Nat)) (refs : Cid → List Cid) (fuel : Nat)
    (s : IncrementalDagVerification) (cid : Cid) (bytes : List Nat) (store : Store) :
    (s.block_state cid ≠ .Want →
      s.verify_and_store_block hashers refs fuel cid bytes store =
        (some (.ExpectedWantedBlock cid (s.block_state cid)), s, store)) ∧
    (s.block_state cid = .Want → hashers cid.hashCode = none →
      s.verify_and_store_block hashers refs fuel cid bytes store =
        (some (.UnsupportedHashCode cid), s, store)) ∧
    (∀ hash_func, s.block_state cid = .Want → hashers cid.hashCode = some hash_func →
      hash_func bytes ≠ cid.digest →
      s.verify_and_store_block hashers refs fuel cid bytes store =
        (some (.DigestMismatch cid ⟨cid.codec, cid.hashCode, hash_func bytes⟩), s, store)) ∧
    (∀ hash_func, s.block_state cid = .Want → hashers cid.hashCode = some hash_func →
      hash_func bytes = cid.digest →
      s.verify_and_store_block hashers refs fuel cid bytes store =
        (none, s.update_have_cids (put_keyed store cid bytes) refs fuel,
          put_keyed store cid bytes)) ∧
    ((s.verify_and_store_block hashers refs fuel cid bytes store).1 ≠ none →
      (s.verify_and_store_block hashers refs fuel cid bytes store).2.1 = s ∧
      (s.verify_and_store_block hashers refs fuel cid bytes store).2.2 = store) := by
  refine ⟨?_, ?_, ?_, ?_, ?_⟩
  · intro hst
    simp [IncrementalDagVerification.verify_and_store_block, hst]
  · intro hst hna
    simp [IncrementalDagVerification.verify_and_store_block, hst, hna]
  · intro hash_func hst hsome hne
    simp [IncrementalDagVerification.verify_and_store_block, hst, hsome, hne]
  · intro hash_func hst hsome heq
    simp [IncrementalDagVerification.verify_and_store_block, hst, hsome, heq]
  · intro herr
    unfold IncrementalDagVerification.verify_and_store_block at herr ⊢
    by_cases hst : s.block_state cid ≠ .Want
    · simp [hst]
    · simp only [hst, if_false, ite_not, if_neg]
      match hna : hashers cid.hashCode with
      | none => simp [hst, hna]
      | some hash_func =>
        by_cases hne : hash_func bytes ≠ cid.digest
        · simp [hst, hna, hne]
        · simp [hst, hna, hne] at herr

/-- Witness for C1 on concrete inputs exercising all four branches: an
unexpected block, an unknown multihash code, a digest mismatch, and a
successful verification. -/
theorem verify_and_store_block_cases_witness :
    (IncrementalDagVerification.verify_and_store_block hashers0 refs0 1
        ⟨[cidA], []⟩ cidB [] store0 =
      (some (.ExpectedWantedBlock cidB .Unexpected), ⟨[cidA], []⟩, store0)) ∧
    (IncrementalDagVerification.verify_and_store_block hashers0 refs0 1
        ⟨[cidC], []⟩ cidC [] store0 =
      (some (.UnsupportedHashCode cidC), ⟨[cidC], []⟩, store0)) ∧
    (IncrementalDagVerification.verify_and_store_block hashers0 refs0 1
        ⟨[cidA], []⟩ cidA [9] store0 =
      (some (.DigestMismatch cidA ⟨cidA.codec, cidA.hashCode, [1]⟩), ⟨[cidA], []⟩, store0)) ∧
    (IncrementalDagVerification.verify_and_store_block hashers0 refs0 1
        ⟨[cidA], []⟩ cidA [9, 9] store0 =
      (none, IncrementalDagVerification.update_have_cids (put_keyed store0 cidA [9, 9])
        refs0 1 ⟨[cidA], []⟩, put_keyed store0 cidA [9, 9])) := by
  refine ⟨?_, ?_, ?_, ?_⟩
  · exact (verify_and_store_block_cases hashers0 refs0 1 ⟨[cidA], []⟩ cidB [] store0).1
      (by decide)
  · exact (verify_and_store_block_cases hashers0 refs0 1 ⟨[cidC], []⟩ cidC [] store0).2.1
      (by decide) (by rfl)
  · exact (verify_and_store_block_cases hashers0 refs0 1 ⟨[cidA], []⟩ cidA [9] store0).2.2.1
      (fun b => [b.length]) (by decide) (by rfl) (by decide)
  · exact (verify_and_store_block_cases hashers0 refs0 1
      ⟨[cidA], []⟩ cidA [9, 9] store0).2.2.2.1
      (fun b => [b.length]) (by decide) (by rfl) (by decide)

lemma mark_as_want_wf {s : IncrementalDagVerification} (hs : s.WellFormed) (c : Cid) :
    (s.mark_as_want c).WellFormed := by
  obtain ⟨hw, hh, hd⟩ := hs
  refine ⟨hw.insert, hh.erase _, ?_⟩
  intro x hx hx'
  rcases List.mem_insert_iff.mp hx with rfl | hxw
  · exact ((List.Nodup.mem_erase_iff hh).mp hx').1 rfl
  · exact hd x hxw ((List.Nodup.mem_erase_iff hh).mp hx').2

lemma mark_as_have_wf {s : IncrementalDagVerification} (hs : s.WellFormed) (c : Cid) :
    (s.mark_as_have c).WellFormed := by
  obtain ⟨hw, hh, hd⟩ := hs
  refine ⟨hw.erase _, hh.insert, ?_⟩
  intro x hx hx'
  have h1 := (List.Nodup.mem_erase_iff hw).mp hx
  rcases List.mem_insert_iff.mp hx' with rfl | hxh
  · exact h1.1 rfl
  · exact hd x h1.2 hxh

lemma apply_items_wf :
    ∀ (items : List TraversedItem) (s : IncrementalDagVerification),
      s.WellFormed → (s.apply_items items).WellFormed := by
  intro items
  induction items with
  | nil => intro s hs; exact hs
  | cons it rest ih =>
    intro s hs
    match it with
    | .Have c => exact ih _ (mark_as_have_wf hs c)
    | .Missing c => exact ih _ (mark_as_want_wf hs c)

lemma update_have_cids_wf (store : Store) (refs : Cid → List Cid) (fuel : Nat)
    {s : IncrementalDagVerification} (hs : s.WellFormed) :
    (s.update_have_cids store refs fuel).WellFormed :=
  apply_items_wf _ s hs

lemma foldl_insert_nodup :
    ∀ (l acc : List Cid), acc.Nodup → (l.foldl (fun acc c => acc.insert c) acc).Nodup := by
  intro l
  induction l with
  | nil => intro acc h; exact h
  | cons c rest ih => intro acc h; exact ih _ h.insert

/-- C8: the want and have sets of an incremental DAG verification are disjoint
after construction with `new`, and disjointness (together with the set
representation invariant) is preserved by `update_have_cids` and by
`verify_and_store_block`. -/
theorem want_have_disjoint :
    (∀ (store : Store) (refs : Cid → List Cid) (fuel : Nat) (roots : List Cid),
      (IncrementalDagVerification.new store refs fuel roots).WellFormed) ∧
    (∀ (store : Store) (refs : Cid → List Cid) (fuel : Nat)
        (s : IncrementalDagVerification), s.WellFormed →
      (s.update_have_cids store refs fuel).WellFormed) ∧
    (∀ (hashers : Nat → Option (List Nat → List Nat)) (refs : Cid → List Cid) (fuel : Nat)
        (s : IncrementalDagVerification) (cid : Cid) (bytes : List Nat) (store : Store),
      s.WellFormed →
      (s.verify_and_store_block hashers refs fuel cid bytes store).2.1.WellFormed) := by
  refine ⟨?_, ?_, ?_⟩
  · intro store refs fuel roots
    exact update_have_cids_wf store refs fuel
      ⟨foldl_insert_nodup roots [] List.nodup_nil, List.nodup_nil, by simp⟩
  · intro store refs fuel s hs
    exact update_have_cids_wf store refs fuel hs
  · intro hashers refs fuel s cid bytes store hs
    unfold IncrementalDagVerification.verify_and_store_block
    by_cases hst : s.block_state cid ≠ .Want
    · simpa [hst] using hs
    · simp only [hst, if_false, ite_not, if_neg]
      match hna : hashers cid.hashCode with
      | none => simpa [hst, hna] using hs
      | some hash_func =>
        by_cases hne : hash_func bytes ≠ cid.digest
        · simpa [hst, hna, hne] using hs
        · have heq := not_not.mp hne
          simpa [hst, hna, heq] using
            update_have_cids_wf (put_keyed store cid bytes) refs fuel hs

/-- Witness for C8 on concrete inputs: a fresh verification state, an update
of a disjoint two-element state, and a successful verification of a wanted
block, all well-formed. -/
theorem want_have_disjoint_witness :
    (IncrementalDagVerification.new store1 refs0 2 [cidA]).WellFormed ∧
    (IncrementalDagVerification.update_have_cids store0 refs0 2
      ⟨[cidA], [cidB]⟩).WellFormed ∧
    ((⟨[cidA], [cidB]⟩ : IncrementalDagVerification).verify_and_store_block
      hashers0 refs0 1 cidA [9, 9] store0).2.1.WellFormed := by
  have T := want_have_disjoint
  exact ⟨T.1 store1 refs0 2 [cidA],
    T.2.1 store0 refs0 2 ⟨[cidA], [cidB]⟩ ⟨by decide, by decide, by decide⟩,
    T.2.2 hashers0 refs0 1 ⟨[cidA], [cidB]⟩ cidA [9, 9] store0
      ⟨by decide, by decide, by decide⟩⟩

/-- C3: for every frame consumed by the block receive loop, an oversized block
fails the whole call with `BlockSizeExceeded` regardless of the block's state;
otherwise a wanted block is verified and stored and the loop continues with
the refreshed state (a verification failure aborting the call with that
error); a `Have` or `Unexpected` block stops the loop without error, and the
receiver state of the current verification state is returned; an exhausted
stream also returns that state. `block_receive_block_stream` is this loop
started from the verification state of the single root. -/
theorem block_receive_frame_cases
    (hashers : Nat → Option (List Nat → List Nat)) (refs : Cid → List Cid) (fuel : Nat)
    (build : List Cid → BloomFilter) (config : Config) (s : IncrementalDagVerification)
    (store : Store) (cid : Cid) (block : List Nat) (rest : List (Cid × List Nat)) :
    (block.length > config.max_block_size →
      block_receive_loop hashers refs fuel build config s store ((cid, block) :: rest) =
        .error (.BlockSizeExceeded cid block.length config.max_block_size)) ∧
    (block.length ≤ config.max_block_size →
      (s.block_state cid = .Have ∨ s.block_state cid = .Unexpected) →
      block_receive_loop hashers refs fuel build config s store ((cid, block) :: rest) =
        .ok (s.into_receiver_state build)) ∧
    (∀ s' store', block.length ≤ config.max_block_size → s.block_state cid = .Want →
      s.verify_and_store_block hashers refs fuel cid block store = (none, s', store') →
      block_receive_loop hashers refs fuel build config s store ((cid, block) :: rest) =
        block_receive_loop hashers refs fuel build config s' store' rest) ∧
    (∀ e, block.length ≤ config.max_block_size → s.block_state cid = .Want →
      (s.verify_and_store_block hashers refs fuel cid block store).1 = some e →
      block_receive_loop hashers refs fuel build config s store ((cid, block) :: rest) =
        .error e) ∧
    (block_receive_loop hashers refs fuel build config s store [] =
      .ok (s.into_receiver_state build)) ∧
    (∀ (root : Cid) (frames : List (Cid × List Nat)),
      block_receive_block_stream hashers refs fuel build config root frames store =
        block_receive_loop hashers refs fuel build config
          (IncrementalDagVerification.new store refs fuel [root]) store frames) := by
  refine ⟨?_, ?_, ?_, ?_, rfl, fun _ _ => rfl⟩
  · intro hbig
    simp [block_receive_loop, hbig]
  · intro hsmall hstate
    rcases hstate with hstate | hstate <;>
      simp [block_receive_loop, Nat.not_lt.mpr hsmall, read_and_verify_block, hstate]
  · intro s' store' hsmall hstate hverify
    simp [block_receive_loop, Nat.not_lt.mpr hsmall, read_and_verify_block, hstate, hverify]
  · intro e hsmall hstate hverify
    match hv : s.verify_and_store_block hashers refs fuel cid block store with
    | (err, s1, store1) =>
      rw [hv] at hverify
      simp only at hverify
      subst hverify
      simp [block_receive_loop, Nat.not_lt.mpr hsmall, read_and_verify_block, hstate, hv]

/-- Witness for C3 on concrete inputs: an oversized frame, a frame whose CID
is already had, a successfully verified wanted frame, a digest-mismatching
wanted frame, the empty stream, and the loop started from a root. -/
theorem block_receive_frame_cases_witness :
    (block_receive_loop hashers0 refs0 1 build0 ⟨100, 1, 10⟩ ⟨[cidA], []⟩ store0
        [(cidA, [9, 9])] =
      .error (.BlockSizeExceeded cidA 2 1)) ∧
    (block_receive_loop hashers0 refs0 1 build0 ⟨100, 10, 10⟩ ⟨[cidB], [cidA]⟩ store1
        [(cidA, [9, 9])] =
      .ok ((⟨[cidB], [cidA]⟩ : IncrementalDagVerification).into_receiver_state build0)) ∧
    (block_receive_loop hashers0 refs0 1 build0 ⟨100, 10, 10⟩ ⟨[cidA], []⟩ store0
        [(cidA, [9, 9])] =
      block_receive_loop hashers0 refs0 1 build0 ⟨100, 10, 10⟩
        (IncrementalDagVerification.update_have_cids (put_keyed store0 cidA [9, 9]) refs0 1
          ⟨[cidA], []⟩) (put_keyed store0 cidA [9, 9]) []) ∧
    (block_receive_loop hashers0 refs0 1 build0 ⟨100, 10, 10⟩ ⟨[cidA], []⟩ store0
        [(cidA, [9])] =
      .error (.DigestMismatch cidA ⟨cidA.codec, cidA.hashCode, [1]⟩)) ∧
    (block_receive_loop hashers0 refs0 1 build0 ⟨100, 10, 10⟩ ⟨[cidA], []⟩ store0 [] =
      .ok ((⟨[cidA], []⟩ : IncrementalDagVerification).into_receiver_state build0)) ∧
    (block_receive_block_stream hashers0 refs0 1 build0 ⟨100, 10, 10⟩ cidA [] store0 =
      block_receive_loop hashers0 refs0 1 build0 ⟨100, 10, 10⟩
        (IncrementalDagVerification.new store0 refs0 1 [cidA]) store0 []) := by
  refine ⟨?_, ?_, ?_, ?_, ?_, ?_⟩
  · exact (block_receive_frame_cases hashers0 refs0 1 build0 ⟨100, 1, 10⟩ ⟨[cidA], []⟩
      store0 cidA [9, 9] []).1 (by decide)
  · exact (block_receive_frame_cases hashers0 refs0 1 build0 ⟨100, 10, 10⟩ ⟨[cidB], [cidA]⟩
      store1 cidA [9, 9] []).2.1 (by decide) (Or.inl (by decide))
  · exact (block_receive_frame_cases hashers0 refs0 1 build0 ⟨100, 10, 10⟩ ⟨[cidA], []⟩
      store0 cidA [9, 9] []).2.2.1 _ _ (by decide) (by decide) (by rfl)
  · exact (block_receive_frame_cases hashers0 refs0 1 build0 ⟨100, 10, 10⟩ ⟨[cidA], []⟩
      store0 cidA [9] []).2.2.2.1 _ (by decide) (by decide) (by rfl)
  · exact (block_receive_frame_cases hashers0 refs0 1 build0 ⟨100, 10, 10⟩ ⟨[cidA], []⟩
      store0 cidA [9] []).2.2.2.2.1
  · exact (block_receive_frame_cases hashers0 refs0 1 build0 ⟨100, 10, 10⟩ ⟨[cidA], []⟩
      store0 cidA [9] []).2.2.2.2.2 cidA []

lemma verify_err_not_too_many_bytes (hashers : Nat → Option (List Nat → List Nat))
    (refs : Cid → List Cid) (fuel : Nat) (s : IncrementalDagVerification)
    (cid : Cid) (bytes : List Nat) (store : Store) (a b : Nat) :
    (s.verify_and_store_block hashers refs fuel cid bytes store).1 ≠
      some (.TooManyBytes a b) := by
  unfold IncrementalDagVerification.verify_and_store_block
  by_cases hst : s.block_state cid ≠ .Want
  · simp [hst]
  · simp only [hst, if_false, ite_not, if_neg]
    match hna : hashers cid.hashCode with
    | none => simp
    | some hash_func =>
      by_cases hne : hash_func bytes = cid.digest <;> simp [hne]

lemma block_receive_loop_not_too_many_bytes (hashers : Nat → Option (List Nat → List Nat))
    (refs : Cid → List Cid) (fuel : Nat) (build : List Cid → BloomFilter) (config : Config) :
    ∀ (frames : List (Cid × List Nat)) (s : IncrementalDagVerification) (store : Store)
      (a b : Nat),
      block_receive_loop hashers refs fuel build config s store frames ≠
        .error (.TooManyBytes a b) := by
  intro frames
  induction frames with
  | nil => intro s store a b; simp [block_receive_loop]
  | cons frame rest ih =>
    intro s store a b
    obtain ⟨cid, block⟩ := frame
    unfold block_receive_loop
    by_cases hbig : block.length > config.max_block_size
    · simp [hbig]
    · simp only [hbig, if_false, if_neg]
      unfold read_and_verify_block
      match hst : s.block_state cid with
      | .Have => simp
      | .Unexpected => simp
      | .Want =>
        match hv : s.verify_and_store_block hashers refs fuel cid block store with
        | (some e, s1, store1) =>
          have hne := verify_err_not_too_many_bytes hashers refs fuel s cid block store a b
          rw [hv] at hne
          simp only [ne_eq, Option.some.injEq] at hne
          simp [hne]
        | (none, s1, store1) => simpa using ih s1 store1 a b

lemma except_map_eq_error {α β γ : Type} {f : α → β} {x : Except γ α} {e : γ}
    (h : Except.map f x = .error e) : x = .error e := by
  cases x with
  | error e1 => simpa [Except.map] using h
  | ok a => simp [Except.map] at h

/-- C4 (amended): `block_receive` with a CAR fails with `TooManyBytes` exactly
when the raw CAR byte length exceeds `receive_maximum`; the check precedes any
parsing or store write (the error is independent of the parser, the stores and
the frames); and with no CAR it returns the receiver state built from the
single root, with its missing subgraph roots truncated to
`max_roots_per_round`. -/
theorem block_receive_too_many_bytes
    (hashers : Nat → Option (List Nat → List Nat)) (refs : Cid → List Cid) (fuel : Nat)
    (build : List Cid → BloomFilter) (parse : List Nat → Option (List (Cid × List Nat)))
    (config : Config) (root : Cid) (store : Store) :
    (∀ car : CarFile, car.bytes.length > config.receive_maximum →
      block_receive hashers refs fuel build parse config root (some car) store =
        .error (.TooManyBytes config.receive_maximum car.bytes.length)) ∧
    (∀ (car : CarFile) (a b : Nat),
      block_receive hashers refs fuel build parse config root (some car) store =
        .error (.TooManyBytes a b) →
      car.bytes.length > config.receive_maximum ∧
        a = config.receive_maximum ∧ b = car.bytes.length) ∧
    (block_receive hashers refs fuel build parse config root none store =
      .ok
        (let rs :=
          (IncrementalDagVerification.new store refs fuel [root]).into_receiver_state build
         { rs with
            missing_subgraph_roots :=
              rs.missing_subgraph_roots.take config.max_roots_per_round })) := by
  refine ⟨?_, ?_, rfl⟩
  · intro car hlen
    simp [block_receive, hlen, Except.map]
  · intro car a b h
    by_cases hlen : car.bytes.length > config.receive_maximum
    · simp [block_receive, hlen, Except.map] at h
      exact ⟨hlen, h.1.symm, h.2.symm⟩
    · exfalso
      simp only [block_receive, hlen, if_false, if_neg] at h
      have hinner := except_map_eq_error h
      unfold block_receive_car_stream at hinner
      match hp : parse car.bytes with
      | none => rw [hp] at hinner; cases hinner
      | some frames =>
        rw [hp] at hinner
        exact block_receive_loop_not_too_many_bytes hashers refs fuel build config frames
          (IncrementalDagVerification.new store refs fuel [root]) store a b hinner

/-- Counterexample to C4 as stated: with `max_roots_per_round = 0`, calling
`block_receive` without a CAR over the empty store returns the truncated
state, not the receiver state obtained from building incremental verification
from the root. -/
theorem block_receive_none_truncates_cex :
    block_receive hashers0 refs0 2 build0 parse0 ⟨100, 100, 0⟩ cidA none store0 ≠
      .ok ((IncrementalDagVerification.new store0 refs0 2 [cidA]).into_receiver_state
        build0) := by
  intro h
  have e1 : block_receive hashers0 refs0 2 build0 parse0 ⟨100, 100, 0⟩ cidA none store0 =
      .ok ⟨[], none⟩ := by rfl
  have e2 : (IncrementalDagVerification.new store0 refs0 2 [cidA]).into_receiver_state
      build0 = ⟨[cidA], none⟩ := by rfl
  rw [e1, e2] at h
  have h1 := Except.ok.inj h
  simp [ReceiverState.mk.injEq] at h1

/-- Witness for C4 on concrete inputs: a two-byte CAR against a one-byte
limit fails with `TooManyBytes`, that error pins down the limit and length,
and the no-CAR call returns the truncated fresh state. -/
theorem block_receive_too_many_bytes_witness :
    (block_receive hashers0 refs0 1 build0 parse0 ⟨1, 10, 10⟩ cidA (some ⟨[1, 2]⟩) store0 =
      .error (.TooManyBytes 1 2)) ∧
    ((⟨[1, 2]⟩ : CarFile).bytes.length > 1 ∧ 1 = 1 ∧ 2 = 2) ∧
    (block_receive hashers0 refs0 1 build0 parse0 ⟨1, 10, 10⟩ cidA none store0 =
      .ok
        (let rs :=
          (IncrementalDagVerification.new store0 refs0 1 [cidA]).into_receiver_state build0
         { rs with missing_subgraph_roots := rs.missing_subgraph_roots.take 10 })) := by
  have T := block_receive_too_many_bytes hashers0 refs0 1 build0 parse0 ⟨1, 10, 10⟩ cidA store0
  have h1 := T.1 ⟨[1, 2]⟩ (by decide)
  exact ⟨h1, T.2.1 ⟨[1, 2]⟩ 1 2 h1, T.2.2⟩

/-- Counterexample to C5 as stated: `block_receive_car_stream` itself does not
truncate; with `max_roots_per_round = 0` it returns one missing subgraph
root. -/
theorem block_receive_car_stream_no_truncation_cex :
    block_receive_car_stream hashers0 refs0 2 build0 parse0 ⟨100, 100, 0⟩ cidA [] store0 =
      .ok ⟨[cidA], none⟩ ∧
    ¬ ((⟨[cidA], none⟩ : ReceiverState).missing_subgraph_roots.length ≤
        (⟨100, 100, 0⟩ : Config).max_roots_per_round) :=
  ⟨rfl, by decide⟩

lemma except_map_eq_ok {α β γ : Type} {f : α → β} {x : Except γ α} {b : β}
    (h : Except.map f x = .ok b) : ∃ a, x = .ok a ∧ b = f a := by
  cases x with
  | error e => simp [Except.map] at h
  | ok a => exact ⟨a, rfl, (Except.ok.inj h).symm⟩

/-- C5 (amended): every successful `block_receive` call returns a state whose
missing subgraph roots were truncated to at most `max_roots_per_round` after
the receive loop; `block_receive_car_stream`, by contrast, passes the state of
`block_receive_block_stream` through untruncated. -/
theorem block_receive_truncates
    (hashers : Nat → Option (List Nat → List Nat)) (refs : Cid → List Cid) (fuel : Nat)
    (build : List Cid → BloomFilter) (parse : List Nat → Option (List (Cid × List Nat)))
    (config : Config) (root : Cid) (store : Store) :
    (∀ (last_car : Option CarFile) (rs : ReceiverState),
      block_receive hashers refs fuel build parse config root last_car store = .ok rs →
      rs.missing_subgraph_roots.length ≤ config.max_roots_per_round) ∧
    (∀ (bytes : List Nat) (frames : List (Cid × List Nat)), parse bytes = some frames →
      block_receive_car_stream hashers refs fuel build parse config root bytes store =
        block_receive_block_stream hashers refs fuel build config root frames store) := by
  constructor
  · intro last_car rs h
    unfold block_receive at h
    obtain ⟨rs0, _, rfl⟩ := except_map_eq_ok h
    simp [List.length_take]
  · intro bytes frames hp
    simp [block_receive_car_stream, hp]

/-- Witness for C5 on concrete inputs: a no-CAR receive whose returned root
list is empty, and the pass-through of the trivial parser. -/
theorem block_receive_truncates_witness :
    (⟨[], none⟩ : ReceiverState).missing_subgraph_roots.length ≤
      (⟨100, 100, 0⟩ : Config).max_roots_per_round ∧
    block_receive_car_stream hashers0 refs0 2 build0 parse0 ⟨100, 100, 0⟩ cidA [] store0 =
      block_receive_block_stream hashers0 refs0 2 build0 ⟨100, 100, 0⟩ cidA [] store0 := by
  have T := block_receive_truncates hashers0 refs0 2 build0 parse0 ⟨100, 100, 0⟩ cidA store0
  exact ⟨T.1 none ⟨[], none⟩ (by rfl), T.2 [] [] (by rfl)⟩

/-- Counterexample to C7 as stated: a receiver state carrying a bloom with an
empty byte array round-trips through `PushResponse` to a state with no bloom
at all, so the bloom is not preserved for every `ReceiverState`. -/
theorem receiver_state_roundtrip_cex :
    ReceiverState.from_push_response
        (PushResponse.from_receiver_state ⟨[], some ⟨3, []⟩⟩) ≠
      ⟨[], some ⟨3, []⟩⟩ := by
  decide

/-- C7 (amended): for every receiver state whose bloom, when present, has a
non-empty bit array (and a hash count fitting the u32 wire field), converting
to a `PushResponse` (resp. `PullRequest`) and back preserves the missing
subgraph roots and the bloom (same bits, same hash count); a state with no
bloom serializes to empty bloom bytes, and empty bloom bytes deserialize to no
bloom for any hash count. -/
theorem receiver_state_roundtrip :
    (∀ s : ReceiverState,
      (∀ b, s.have_cids_bloom = some b → b.bytes ≠ [] ∧ b.hash_count < 2 ^ 32) →
      ReceiverState.from_push_response (PushResponse.from_receiver_state s) = s ∧
      ReceiverState.from_pull_request (PullRequest.from_receiver_state s) = s) ∧
    ReceiverState.bloom_serialize none = (3, []) ∧
    (∀ hash_count : Nat, ReceiverState.bloom_deserialize hash_count [] = none) := by
  refine ⟨?_, rfl, fun hash_count => rfl⟩
  intro s hvalid
  obtain ⟨roots, bloom⟩ := s
  cases bloom with
  | none => exact ⟨rfl, rfl⟩
  | some b =>
    obtain ⟨hne, hlt⟩ := hvalid b rfl
    have hmod : b.hash_count % 4294967296 = b.hash_count :=
      Nat.mod_eq_of_lt (by simpa using hlt)
    constructor <;>
      simp [ReceiverState.from_push_response, ReceiverState.from_pull_request,
        PushResponse.from_receiver_state, PullRequest.from_receiver_state,
        ReceiverState.bloom_serialize, ReceiverState.bloom_deserialize,
        hne, hmod]

/-- Witness for C7 on a concrete state with a one-byte bloom, plus the
serialization of the absent bloom and the deserialization of empty bytes. -/
theorem receiver_state_roundtrip_witness :
    (ReceiverState.from_push_response
        (PushResponse.from_receiver_state ⟨[cidA], some ⟨3, [5]⟩⟩) =
      ⟨[cidA], some ⟨3, [5]⟩⟩ ∧
     ReceiverState.from_pull_request
        (PullRequest.from_receiver_state ⟨[cidA], some ⟨3, [5]⟩⟩) =
      ⟨[cidA], some ⟨3, [5]⟩⟩) ∧
    ReceiverState.bloom_serialize none = (3, []) ∧
    ReceiverState.bloom_deserialize 7 [] = none := by
  have T := receiver_state_roundtrip
  refine ⟨T.1 ⟨[cidA], some ⟨3, [5]⟩⟩ ?_, T.2.1, T.2.2 7⟩
  intro b hb
  obtain rfl := Option.some.inj hb
  exact ⟨by decide, by decide⟩

lemma write_blocks_loop_take (limit : Nat) (frame_size : Cid → List Nat → Nat) :
    ∀ (blocks : List (Cid × List Nat)) (acc : Nat),
      ∃ n, n ≤ blocks.length ∧
        write_blocks_loop (some limit) frame_size acc blocks = blocks.take n ∧
        (∀ i, i < n →
          acc + ((blocks.take i).map fun p => frame_size p.1 p.2).sum +
            (64 + 4 + (blocks.getD i (⟨0, 0, []⟩, [])).2.length) ≤ limit) ∧
        (n < blocks.length →
          acc + ((blocks.take n).map fun p => frame_size p.1 p.2).sum +
            (64 + 4 + (blocks.getD n (⟨0, 0, []⟩, [])).2.length) > limit) := by
  intro blocks
  induction blocks with
  | nil =>
    intro acc
    exact ⟨0, by simp, by simp [write_blocks_loop], by simp, by simp⟩
  | cons bp rest ih =>
    intro acc
    obtain ⟨c, b⟩ := bp
    by_cases hover : acc + (64 + 4 + b.length) > limit
    · refine ⟨0, by simp, ?_, by simp, ?_⟩
      · simp only [write_blocks_loop]
        rw [if_pos hover]
        simp
      · intro _
        simpa using hover
    · obtain ⟨n, hn, heq, hadm, hstop⟩ := ih (acc + frame_size c b)
      refine ⟨n + 1, by simpa using hn, ?_, ?_, ?_⟩
      · simp only [write_blocks_loop]
        rw [if_neg hover]
        simp [heq]
      · intro i hi
        cases i with
        | zero => simpa using Nat.not_lt.mp hover
        | succ j =>
          have hj := hadm j (by omega)
          simp only [List.take_succ_cons, List.map_cons, List.sum_cons, List.getD_cons_succ]
          omega
      · intro hlt
        have hj := hstop (by simpa using hlt)
        simp only [List.take_succ_cons, List.map_cons, List.sum_cons, List.getD_cons_succ]
        omega

/-- C6: with a size limit, the sender's CAR writer always writes the first
block of a non-empty stream regardless of the limit; each subsequent block is
written only after reserving `64 + 4 + block.len` bytes on top of the
cumulative written count without exceeding the limit, the output being the
first block followed by the longest admissible prefix of the rest, and the
writer stops at the first block whose reservation would exceed the limit. -/
theorem write_blocks_first_and_reservation
    (limit : Nat) (first_size frame_size : Cid → List Nat → Nat)
    (c0 : Cid) (b0 : List Nat) (rest : List (Cid × List Nat)) :
    ∃ n, n ≤ rest.length ∧
      write_blocks_into_car (some limit) first_size frame_size ((c0, b0) :: rest) =
        (c0, b0) :: rest.take n ∧
      (∀ i, i < n →
        first_size c0 b0 + ((rest.take i).map fun p => frame_size p.1 p.2).sum +
          (64 + 4 + (rest.getD i (⟨0, 0, []⟩, [])).2.length) ≤ limit) ∧
      (n < rest.length →
        first_size c0 b0 + ((rest.take n).map fun p => frame_size p.1 p.2).sum +
          (64 + 4 + (rest.getD n (⟨0, 0, []⟩, [])).2.length) > limit) := by
  obtain ⟨n, hn, heq, hadm, hstop⟩ :=
    write_blocks_loop_take limit frame_size rest (first_size c0 b0)
  exact ⟨n, hn, by simp [write_blocks_into_car, heq], hadm, hstop⟩

/-- Witness for C6 on a concrete two-block stream against a tight limit: the
first (large) block is written despite exceeding the limit by itself, and the
second block is rejected by the reservation rule. -/
theorem write_blocks_first_and_reservation_witness :
    ∃ n, n ≤ ([(cidB, [5, 5])] : List (Cid × List Nat)).length ∧
      write_blocks_into_car (some 10) size0 size0 ((cidA, List.replicate 20 7) ::
          [(cidB, [5, 5])]) =
        (cidA, List.replicate 20 7) :: [(cidB, [5, 5])].take n ∧
      (∀ i, i < n →
        size0 cidA (List.replicate 20 7) +
            (([(cidB, [5, 5])].take i).map fun p => size0 p.1 p.2).sum +
          (64 + 4 + ([(cidB, [5, 5])].getD i (⟨0, 0, []⟩, [])).2.length) ≤ 10) ∧
      (n < ([(cidB, [5, 5])] : List (Cid × List Nat)).length →
        size0 cidA (List.replicate 20 7) +
            (([(cidB, [5, 5])].take n).map fun p => size0 p.1 p.2).sum +
          (64 + 4 + ([(cidB, [5, 5])].getD n (⟨0, 0, []⟩, [])).2.length) > 10) :=
  write_blocks_first_and_reservation 10 size0 size0 cidA (List.replicate 20 7) [(cidB, [5, 5])]

end CarMirror
